import Mathlib

/-!
Verification of the instantsearch connector logic (connectMultiRange,
connectHierarchicalMenu, connectSortBy) via a shallow embedding.

JavaScript values are modelled as follows:
* machine numbers appearing in the connectors are integers in all the
  behaviour under study, so they are embedded as `Int`; `NaN` is a separate
  constructor (`JNum.nan`) because `Number`/`parseInt` can produce it;
* `undefined` is `Option.none` at the points where it can occur;
* a thrown `TypeError` (property access on `undefined`, `.length`/`.split`
  on a non-string) is modelled by an `Option`-typed result being `none`;
* search-state trees (plain JS objects of strings and nested objects) are
  the inductive `SVal` below.
-/

namespace ISpec

/-! ## JS string and number primitives -/

/-- The character with code `48 + d`; for `d < 10` this is the decimal digit
character, as produced by JS number-to-string conversion. -/
def dChar (d : Nat) : Char := Char.ofNat (48 + d)

/-- Decimal digit test by character code (codes 48–57). -/
def isDigitCh (c : Char) : Bool := decide (48 ≤ c.toNat) && decide (c.toNat ≤ 57)

/-- Numeric value of a digit character. -/
def digitVal (c : Char) : Nat := c.toNat - 48

/-- Accumulating decimal value of a digit string (Horner form). -/
def valAcc (a : Nat) (cs : List Char) : Nat :=
  cs.foldl (fun x c => x * 10 + digitVal c) a

/-- Decimal value of a digit string. -/
def valDigits (cs : List Char) : Nat := valAcc 0 cs

/-- Fuelled decimal printer for naturals; with fuel `≥ n` it prints all digits
of `n` (most significant first), and prints `[]` for `n = 0`. -/
def natToChars : Nat → Nat → List Char
  | 0, _ => []
  | fuel + 1, n => if n = 0 then [] else natToChars fuel (n / 10) ++ [dChar (n % 10)]

/-- Decimal digit characters of a natural, as JS `String(n)` produces them. -/
def natChars (n : Nat) : List Char := if n = 0 then ['0'] else natToChars n n

/-- JS number-to-string conversion for integers (as used by the template
literal in `stringifyItem`). -/
def intToStr (m : Int) : String :=
  if m < 0 then String.mk ('-' :: natChars m.natAbs) else String.mk (natChars m.toNat)

/-- A JS number that is either an actual (integer) number or `NaN`. -/
inductive JNum where
  | nan
  | int (n : Int)
deriving DecidableEq, Repr

/-- Leading sign of a numeric string: `parseInt` (and `Number`) accept one
optional `-` (code 45) or `+` (code 43). Returns (isNegative, rest). -/
def parseSign : List Char → Bool × List Char
  | [] => (false, [])
  | c :: r =>
    if c.toNat = 45 then (true, r)
    else if c.toNat = 43 then (false, r)
    else (false, c :: r)

/-- JS `parseInt(s, 10)`: optional sign, then the longest prefix of decimal
digits; `NaN` if there are no digits. (Leading whitespace and non-decimal
forms do not occur in the connector's state strings and are out of scope.) -/
def parseIntJS (s : String) : JNum :=
  let p := parseSign s.data
  let ds := p.2.takeWhile isDigitCh
  if ds.isEmpty then JNum.nan
  else JNum.int ((if p.1 then -1 else 1) * Int.ofNat (valDigits ds))

/-- JS `Number(s)` restricted to integer-literal strings: the empty string is
`0`; otherwise an optional sign followed by digits only, anything else is
`NaN`. (Fractional/exponent/hex literals do not occur in the connector's
range strings and are out of scope.) -/
def jsNumber (s : String) : JNum :=
  if s.data.isEmpty then JNum.int 0
  else
    let p := parseSign s.data
    if !p.2.isEmpty && p.2.all isDigitCh then
      JNum.int ((if p.1 then -1 else 1) * Int.ofNat (valDigits p.2))
    else JNum.nan

/-- JS `Number` applied to a possibly-undefined string: `Number(undefined)`
is `NaN`. -/
def jsNumberU : Option String → JNum
  | none => JNum.nan
  | some s => jsNumber s

/-- Splitter underlying JS `String.prototype.split` with a one-character
separator, on the character list: `split` of the empty string is `[[]]`,
and every separator occurrence starts a new (possibly empty) chunk. -/
def splitChL (c : Char) : List Char → List (List Char)
  | [] => [[]]
  | x :: xs =>
    if x = c then [] :: splitChL c xs
    else
      match splitChL c xs with
      | [] => [[x]]
      | h :: t => (x :: h) :: t

/-- JS `s.split(sep)` for a one-character separator. -/
def jsSplit (sep : Char) (s : String) : List String :=
  (splitChL sep s.data).map String.mk

/-- Lodash dotted-path splitting, as applied to the template-string paths
`has(state, "multiRange.id")` etc. in connectMultiRange. -/
def splitDots (s : String) : List String := jsSplit '.' s

/-! ## Multi-range refinement codec (src/unnamed/part_000, lines 66–82) -/

/-- An `items` entry's bounds as the connector receives them: each of
`start`/`end` is an integer or absent (`undefined`). -/
structure RawItem where
  start : Option Int
  end_ : Option Int
deriving DecidableEq, Repr

/-- A decoded refinement: each half is `null` (`none`) or a JS number. -/
structure ParsedItem where
  start : Option JNum
  end_ : Option JNum
deriving DecidableEq, Repr

/-- The template fragment `${bound ? bound : ''}` of `stringifyItem`:
`undefined` and `0` are falsy and print as the empty string. -/
def jsNumTmpl : Option Int → String
  | none => ""
  | some n => if n = 0 then "" else intToStr n

/-- `stringifyItem` (part_000 lines 66–71): empty string when both bounds are
`undefined`, otherwise the `start:end` template with falsy bounds elided. -/
def stringifyItem (item : RawItem) : String :=
  match item.start, item.end_ with
  | none, none => ""
  | s, e => jsNumTmpl s ++ ":" ++ jsNumTmpl e

/-- `parseItem` (part_000 lines 73–82). The result is `none` exactly when the
JS function throws: for a non-empty string with no `:`, destructuring leaves
`endStr` undefined and `endStr.length` raises a TypeError. -/
def parseItem (value : String) : Option ParsedItem :=
  if value.length = 0 then some ⟨none, none⟩
  else
    let parts := jsSplit ':' value
    match parts.get? 0, parts.get? 1 with
    | some startStr, some endStr =>
      some ⟨(if startStr.length > 0 then some (parseIntJS startStr) else none),
            (if endStr.length > 0 then some (parseIntJS endStr) else none)⟩
    | _, _ => none

/-! ## Overlap/eligibility evaluator (part_000 lines 116–133) -/

/-- A JS number as it flows through `itemHasRefinement`: finite, one of the
two infinities substituted for elided bounds, or `NaN`. -/
inductive XNum where
  | nan
  | negInf
  | posInf
  | fin (n : Int)
deriving DecidableEq, Repr

/-- JS `<` on such numbers: any comparison involving `NaN` is false. -/
def XNum.ltB : XNum → XNum → Bool
  | XNum.nan, _ => false
  | _, XNum.nan => false
  | XNum.negInf, XNum.negInf => false
  | XNum.negInf, _ => true
  | XNum.posInf, _ => false
  | XNum.fin _, XNum.negInf => false
  | XNum.fin _, XNum.posInf => true
  | XNum.fin a, XNum.fin b => decide (a < b)

/-- Facet statistics as returned by the results accessor (`{min, max}`). -/
structure FacetStats where
  min : Int
  max : Int
deriving DecidableEq, Repr

/-- The slice of a per-index results object that `itemHasRefinement` reads:
whether `getFacetByName(attributeName)` is truthy, and what
`getFacetStats(attributeName)` returns (absent when unavailable). -/
structure IndexResults where
  hasFacet : Bool
  stats : Option FacetStats
deriving DecidableEq, Repr

/-- Lines 116–118: `stats.min > start && stats.min < end ||
stats.max > start && stats.max < end` (JS `a > b` is `b < a`). -/
def isRefinementsRangeIncludesInsideItemRange
    (stats : FacetStats) (start end_ : XNum) : Bool :=
  (XNum.ltB start (XNum.fin stats.min) && XNum.ltB (XNum.fin stats.min) end_) ||
  (XNum.ltB start (XNum.fin stats.max) && XNum.ltB (XNum.fin stats.max) end_)

/-- Lines 120–122: `start > stats.min && start < stats.max ||
end > stats.min && end < stats.max`. -/
def isItemRangeIncludedInsideRefinementsRange
    (stats : FacetStats) (start end_ : XNum) : Bool :=
  (XNum.ltB (XNum.fin stats.min) start && XNum.ltB start (XNum.fin stats.max)) ||
  (XNum.ltB (XNum.fin stats.min) end_ && XNum.ltB end_ (XNum.fin stats.max))

/-- `itemHasRefinement` (lines 124–133). Despite its name, the returned flag
is assigned to `noRefinement` in `getProvidedProps`: `true` means the bucket
is flagged as having no refinement available. A bound whose `Number` value is
`0`, or any bound of the empty-string value, is replaced by the corresponding
infinity. -/
def itemHasRefinement (results : IndexResults) (value : String) : Bool :=
  let stats := if results.hasFacet then results.stats else none
  let range := jsSplit ':' value
  let n0 := jsNumberU (range.get? 0)
  let n1 := jsNumberU (range.get? 1)
  let start := if n0 = JNum.int 0 || value = "" then XNum.negInf
    else match n0 with
      | JNum.int k => XNum.fin k
      | JNum.nan => XNum.nan
  let end_ := if n1 = JNum.int 0 || value = "" then XNum.posInf
    else match n1 with
      | JNum.int k => XNum.fin k
      | JNum.nan => XNum.nan
  !(match stats with
    | some st =>
      isRefinementsRangeIncludesInsideItemRange st start end_ ||
      isItemRangeIncludedInsideRefinementsRange st start end_
    | none => false)

/-! ## Search-state trees

A serializable search state is a JS object whose leaves are strings. `SVal`
represents such a value as a string leaf or an object given by its ordered
key/value spine (`nilO` is `{}`). Properties of JS string primitives (such as
`.length` or index keys) are outside the model: property reads on a string
leaf yield `undefined`, which is exact for every key the connectors use. -/

inductive SVal where
  | str (s : String)
  | nilO
  | consO (k : String) (v : SVal) (rest : SVal)
deriving DecidableEq, Repr

/-- JS property read `v[key]` on a defined value (`none` is `undefined`).
An object read returns the first binding of `key`. -/
def jsGet : SVal → String → Option SVal
  | SVal.consO k v rest, key => if k = key then some v else jsGet rest key
  | _, _ => none

/-- JS property read `v[key]` where the receiver may be `undefined`; reading
a property of `undefined` throws, modelled by the outer `none`. -/
def jsChain : Option SVal → String → Option (Option SVal)
  | none, _ => none
  | some w, k => some (jsGet w k)

/-- Value at a key path, `none` when any step is missing. -/
def getPath : List String → SVal → Option SVal
  | [], v => some v
  | k :: rest, v => (jsGet v k).bind (getPath rest)

/-- Lodash `has(state, path)`: every step of the path is an own property. -/
def lodashHas (v : SVal) (path : List String) : Bool :=
  (getPath path v).isSome

/-- Removal of every binding of `key` from an object (lodash `unset`/`omit`
with a one-step path; JS objects bind each key once). -/
def removeKey : SVal → String → SVal
  | SVal.consO k v rest, key =>
    if k = key then removeKey rest key else SVal.consO k v (removeKey rest key)
  | v, _ => v

/-- Rewrites the value bound to `key` with `f`, leaving everything else in
place; no entry is created when the key is absent. -/
def mapAtKey : SVal → String → (SVal → SVal) → SVal
  | SVal.consO k v rest, key, f =>
    if k = key then SVal.consO k (f v) (mapAtKey rest key f)
    else SVal.consO k v (mapAtKey rest key f)
  | v, _, _ => v

/-- Lodash `unset(obj, path)` (also the tail of `omit(obj, path)`, which is
clone-then-unset): deletes the binding at the end of the path; missing
intermediate steps leave the value unchanged. -/
def unsetPath : List String → SVal → SVal
  | [], v => v
  | [k], v => removeKey v k
  | k :: k2 :: rest, v => mapAtKey v k (unsetPath (k2 :: rest))

/-- JS spread update `{...obj, key: v}`: replaces the first binding of `key`
in place, or appends the binding. (Spreading a string primitive would produce
its index keys; string receivers are outside the state model.) -/
def setKey : SVal → String → SVal → SVal
  | SVal.consO k v rest, key, nv =>
    if k = key then SVal.consO k nv rest else SVal.consO k v (setKey rest key nv)
  | _, key, nv => SVal.consO key nv SVal.nilO

/-- Keys of an object spine, in order. -/
def keysOf : SVal → List String
  | SVal.consO k _ rest => k :: keysOf rest
  | _ => []

/-- Whether a value is a well-formed object spine (every tail is an object). -/
def isObjSpine : SVal → Bool
  | SVal.nilO => true
  | SVal.consO _ _ rest => isObjSpine rest
  | SVal.str _ => false

/-- JS truthiness of a possibly-undefined state value: `undefined` and the
empty string are falsy, all objects (including `{}`) are truthy. -/
def jsTruthyO : Option SVal → Bool
  | none => false
  | some (SVal.str s) => !(s == "")
  | some _ => true

/-- Lodash `isEmpty` on a possibly-undefined state value: `undefined`, the
empty string and `{}` are empty. -/
def lodashIsEmptyO : Option SVal → Bool
  | none => true
  | some (SVal.str s) => s == ""
  | some SVal.nilO => true
  | some (SVal.consO _ _ _) => false

/-- JS truthiness of an optional string prop such as `defaultRefinement`. -/
def jsTruthyOptStr : Option String → Bool
  | none => false
  | some s => !(s == "")

/-- Host context: single-index (with the main targetted index) or multi-index
(with the targetted index of this widget). -/
inductive Ctx where
  | single (main : String)
  | multi (target : String)
deriving DecidableEq, Repr

/-- `getIndex(context)` of connectMultiRange/connectHierarchicalMenu. -/
def getIndex : Ctx → String
  | Ctx.single m => m
  | Ctx.multi t => t

/-- `hasMultipleIndex(context)`. -/
def hasMultipleIndex : Ctx → Bool
  | Ctx.single _ => false
  | Ctx.multi _ => true

/-- A value returned from a connector read: JS `undefined`, `null`, or a
defined state value. -/
inductive RetVal where
  | undef
  | null
  | val (v : SVal)
deriving DecidableEq, Repr

/-! ## connectMultiRange (src/unnamed/part_000) -/

/-- An entry of the multi-range `items` prop. -/
structure MRItem where
  label : Option String
  start : Option Int
  end_ : Option Int
deriving DecidableEq, Repr

/-- The props of connectMultiRange that its pure logic reads:
`attributeName` (also the widget id, line 86–88), `defaultRefinement`, and
`items`. -/
structure MRProps where
  attributeName : String
  defaultRefinement : Option String
  items : List MRItem
deriving DecidableEq, Repr

/-- `getCurrentRefinement` of connectMultiRange (lines 98–114). The outer
`Option` is `none` when the JS code throws (reading a property of an
`undefined` intermediate object, possible only in multi-index mode when the
lodash dotted-path check and the literal accesses disagree). -/
def getCurrentRefinementMR (props : MRProps) (searchState : SVal) (ctx : Ctx) :
    Option RetVal :=
  let id := props.attributeName
  let index := getIndex ctx
  let refinements :=
    (hasMultipleIndex ctx &&
      lodashHas searchState (splitDots ("indices." ++ index ++ ".multiRange." ++ id)))
    || (!hasMultipleIndex ctx && lodashHas searchState (splitDots ("multiRange." ++ id)))
  if refinements then do
    let subState ←
      if hasMultipleIndex ctx then do
        let b ← jsChain (jsGet searchState "indices") index
        jsChain b "multiRange"
      else
        pure (jsGet searchState "multiRange")
    let v ← jsChain subState id
    pure (match v with
      | some (SVal.str s) => if s = "" then RetVal.val (SVal.str "") else RetVal.val (SVal.str s)
      | some x => RetVal.val x
      | none => RetVal.undef)
  else
    pure (match props.defaultRefinement with
      | some d => if d = "" then RetVal.val (SVal.str "") else RetVal.val (SVal.str d)
      | none => RetVal.val (SVal.str ""))

/-- A read refinement value fed to `parseItem` (line 231): only a string
survives; `undefined`/`null` throw on `.length`, objects throw on `.split`. -/
def parseItemRV : RetVal → Option ParsedItem
  | RetVal.val (SVal.str s) => parseItem s
  | _ => none

/-- Modelled from the spec (§6): the immutable query-parameters builder of
the external `algoliasearch-helper`, restricted to the operations
connectMultiRange invokes; each mutator returns a new value recording the
call. -/
structure SearchParams where
  disjunctiveFacets : List String
  numericRefinements : List (String × String × Int)
deriving DecidableEq, Repr

/-- Modelled from the spec (§6): declares a disjunctive facet. -/
def addDisjunctiveFacet (sp : SearchParams) (a : String) : SearchParams :=
  { sp with disjunctiveFacets := sp.disjunctiveFacets ++ [a] }

/-- Modelled from the spec (§6): records a numeric comparison refinement
(operator `">="` or `"<="`). -/
def addNumericRefinement (sp : SearchParams) (a op : String) (v : Int) : SearchParams :=
  { sp with numericRefinements := sp.numericRefinements ++ [(a, op, v)] }

/-- `getSearchParameters` of connectMultiRange (lines 229–249): declares the
disjunctive facet, then adds a `>=`/`<=` refinement for each decoded bound
that is truthy (`if (start)`, `if (end)`). `none` when `getCurrentRefinement`
or `parseItem` would throw. -/
def getSearchParametersMR (sp : SearchParams) (props : MRProps)
    (searchState : SVal) (ctx : Ctx) : Option SearchParams := do
  let cur ← getCurrentRefinementMR props searchState ctx
  let item ← parseItemRV cur
  let sp1 := addDisjunctiveFacet sp props.attributeName
  let sp2 := match item.start with
    | some (JNum.int n) =>
      if n = 0 then sp1 else addNumericRefinement sp1 props.attributeName ">=" n
    | _ => sp1
  let sp3 := match item.end_ with
    | some (JNum.int n) =>
      if n = 0 then sp2 else addNumericRefinement sp2 props.attributeName "<=" n
    | _ => sp2
  pure sp3

/-- `cleanUp` of connectMultiRange (lines 148–156): lodash `omit` with the
dotted template path, then pruning of an empty `multiRange` namespace.
`omit` clones, so the input is not mutated. -/
def cleanUpMR (props : MRProps) (searchState : SVal) (ctx : Ctx) : SVal :=
  let pfx :=
    if hasMultipleIndex ctx && jsTruthyO (jsGet searchState "indices") then
      "indices." ++ getIndex ctx ++ ".multiRange"
    else "multiRange"
  let cleanState := unsetPath (splitDots (pfx ++ "." ++ props.attributeName)) searchState
  if lodashIsEmptyO (jsGet cleanState "multiRange") then removeKey cleanState "multiRange"
  else cleanState

/-- An item of the list `getProvidedProps` derives (lines 191–212), before
`transformItems`. -/
structure PItem where
  label : Option String
  value : String
  isRefined : Bool
  noRefinement : Bool
deriving DecidableEq, Repr

/-- JS `value === currentRefinement` for a string `value`. -/
def retEqStr (cur : RetVal) (value : String) : Bool :=
  match cur with
  | RetVal.val (SVal.str s) => s == value
  | _ => false

/-- The item list derived by `getProvidedProps` of connectMultiRange
(lines 187–212), before `transformItems` is applied. `res` is
`searchResults.results[index]` when `searchResults.results` and the index
entry are truthy, else `none`. `none` overall when `getCurrentRefinement`
would throw. -/
def getProvidedItemsMR (props : MRProps) (searchState : SVal) (ctx : Ctx)
    (res : Option IndexResults) : Option (List PItem) := do
  let currentRefinement ← getCurrentRefinementMR props searchState ctx
  let items := props.items.map (fun item =>
    let value := stringifyItem ⟨item.start, item.end_⟩
    { label := item.label
      value := value
      isRefined := retEqStr currentRefinement value
      noRefinement := match res with
        | some r => itemHasRefinement r value
        | none => false : PItem })
  let stats := match res with
    | some r => if r.hasFacet then r.stats else none
    | none => none
  let refinedItem := items.find? (fun it => it.isRefined)
  if !(items.any (fun it => it.value == "")) then
    pure (items ++ [{ label := some "All"
                      value := ""
                      isRefined := refinedItem.isNone
                      noRefinement := stats.isNone }])
  else pure items

/-! ## connectHierarchicalMenu (connectHierarchicalMenu.js) -/

/-- The props of connectHierarchicalMenu that its pure logic reads. -/
structure HMProps where
  attributes : List String
  defaultRefinement : Option String
deriving DecidableEq, Repr

/-- `getId(props) = props.attributes[0]` (line 7); the propTypes validator
requires a non-empty array of strings. -/
def getIdHM (props : HMProps) : String := props.attributes.headD "undefined"

/-- `getCurrentRefinement` of connectHierarchicalMenu (lines 19–35). Unlike
the multiRange version, the lodash `has` calls use array paths whose
segments are literal keys, and a stored empty string reads back as `null`. -/
def getCurrentRefinementHM (props : HMProps) (searchState : SVal) (ctx : Ctx) :
    Option RetVal :=
  let id := getIdHM props
  let index := getIndex ctx
  let refinements :=
    (hasMultipleIndex ctx &&
      lodashHas searchState ["indices", index, "hierarchicalMenu", id])
    || (!hasMultipleIndex ctx && lodashHas searchState ["hierarchicalMenu", id])
  if refinements then do
    let subState ←
      if hasMultipleIndex ctx then do
        let b ← jsChain (jsGet searchState "indices") index
        jsChain b "hierarchicalMenu"
      else
        pure (jsGet searchState "hierarchicalMenu")
    let v ← jsChain subState id
    pure (match v with
      | some (SVal.str s) => if s = "" then RetVal.null else RetVal.val (SVal.str s)
      | some x => RetVal.val x
      | none => RetVal.undef)
  else
    pure (match props.defaultRefinement with
      | some d => if d = "" then RetVal.null else RetVal.val (SVal.str d)
      | none => RetVal.null)

/-- Modelled from the spec (§4.4, §6): `toggleHierarchicalFacetRefinement` of
the external query-builder keeps exactly one active path per facet; toggling
the already-active path clears it, toggling any other path replaces it.
`none` is the cleared state, in which reading the refinement back
(`getHierarchicalRefinement(id)[0]`) yields no path. -/
def toggleHierarchicalFacetRefinement (cur : Option String) (path : String) :
    Option String :=
  if cur = some path then none else some path

/-- `getValue` of connectHierarchicalMenu (lines 37–69): the derived value of
a node is its path if nothing is refined, otherwise the single refinement
left in a fresh builder after `toggle(currentRefinement); toggle(path)`. The
inner `Option` is the read-back path (`none` when the toggles cancelled);
the outer `none` covers a non-string current refinement, whose toggling
inside the external builder is outside the model. -/
def getValueHM (path : String) (props : HMProps) (searchState : SVal) (ctx : Ctx) :
    Option (Option String) := do
  let currentRefinement ← getCurrentRefinementHM props searchState ctx
  match currentRefinement with
  | RetVal.null => pure (some path)
  | RetVal.val (SVal.str cur) =>
    pure (toggleHierarchicalFacetRefinement
      (toggleHierarchicalFacetRefinement none cur) path)
  | _ => none

/-- `cleanUp` of connectHierarchicalMenu (lines 95–103). The lodash `unset`
call MUTATES the `searchState` argument. The first component is the returned
state; the second is the value the caller's `searchState` object holds after
the call. -/
def cleanUpHM (props : HMProps) (searchState : SVal) (ctx : Ctx) : SVal × SVal :=
  let pfx :=
    if hasMultipleIndex ctx && jsTruthyO (jsGet searchState "indices") then
      "indices." ++ getIndex ctx ++ ".hierarchicalMenu"
    else "hierarchicalMenu"
  let mutated := unsetPath [pfx, getIdHM props] searchState
  let ret :=
    if lodashIsEmptyO (jsGet mutated "hierarchicalMenu") then
      removeKey mutated "hierarchicalMenu"
    else mutated
  (ret, mutated)

/-! ## connectSortBy (src/unnamed/part_001) -/

/-- `refine` of connectSortBy (lines 62–72): spreads
`{indices: {[target]: {sortBy: next}}}` (multi-index) or `{sortBy: next}`
(single-index) over the search state, replacing the whole key. -/
def refineSB (searchState : SVal) (nextRefinement : SVal) (ctx : Ctx) : SVal :=
  match ctx with
  | Ctx.multi target =>
    setKey searchState "indices"
      (SVal.consO target (SVal.consO "sortBy" nextRefinement SVal.nilO) SVal.nilO)
  | Ctx.single _ => setKey searchState "sortBy" nextRefinement

/-- Lodash `omit(value, key)` at the top level, as connectSortBy uses it:
omitting from `undefined` or a primitive yields `{}`. -/
def omitTop : Option SVal → String → SVal
  | none, _ => SVal.nilO
  | some (SVal.str _), _ => SVal.nilO
  | some w, k => removeKey w k

/-- `cleanUp` of connectSortBy (lines 74–81). -/
def cleanUpSB (searchState : SVal) (ctx : Ctx) : SVal :=
  if hasMultipleIndex ctx && jsTruthyO (jsGet searchState "indices") then
    let index := getIndex ctx
    setKey searchState "indices"
      (SVal.consO index (omitTop ((jsGet searchState "indices").bind (fun w => jsGet w index)) "sortBy") SVal.nilO)
  else removeKey searchState "sortBy"

/-- The lodash path connectMultiRange's `getCurrentRefinement` checks with
`has`, per context: the dot-split of the template string
`multiRange.<id>` or `indices.<index>.multiRange.<id>`. -/
def mrHasPath (id : String) : Ctx → List String
  | Ctx.single _ => splitDots ("multiRange." ++ id)
  | Ctx.multi idx => splitDots ("indices." ++ idx ++ ".multiRange." ++ id)

/-- The literal property-access chain connectMultiRange's
`getCurrentRefinement` then reads (`searchState[ns][id]` resp.
`searchState.indices[index][ns][id]`), as a key path. -/
def mrEntryPath (id : String) : Ctx → List String
  | Ctx.single _ => ["multiRange", id]
  | Ctx.multi idx => ["indices", idx, "multiRange", id]

/-- The path connectHierarchicalMenu's `getCurrentRefinement` both checks
with `has` (array path, literal keys) and reads, per context. -/
def hmEntryPath (id : String) : Ctx → List String
  | Ctx.single _ => ["hierarchicalMenu", id]
  | Ctx.multi idx => ["indices", idx, "hierarchicalMenu", id]

/-! ## Lemmas: strings, decimal printing and parsing -/

theorem data_mk (l : List Char) : (String.mk l).data = l := rfl

theorem mk_data (s : String) : String.mk s.data = s := rfl

theorem dataAppend (s t : String) : (s ++ t).data = s.data ++ t.data := by
  cases s; cases t; rfl

theorem length_eq_data (s : String) : s.length = s.data.length := rfl

theorem dChar_spec (d : Nat) (h : d < 10) :
    isDigitCh (dChar d) = true ∧ digitVal (dChar d) = d := by
  interval_cases d <;> exact ⟨by decide, by decide⟩

theorem natToChars_digits (fuel : Nat) :
    ∀ n, n ≤ fuel → ∀ c ∈ natToChars fuel n, isDigitCh c = true := by
  induction fuel with
  | zero => intro n _ c hc; simp [natToChars] at hc
  | succ f ih =>
    intro n hn c hc
    by_cases h0 : n = 0
    · simp [natToChars, h0] at hc
    · simp only [natToChars, if_neg h0] at hc
      rcases List.mem_append.mp hc with h | h
      · have hdiv : n / 10 ≤ f := by
          have := Nat.div_lt_self (Nat.pos_of_ne_zero h0) (by norm_num : 1 < 10)
          omega
        exact ih (n / 10) hdiv c h
      · have hd : c = dChar (n % 10) := by simpa using h
        subst hd
        exact (dChar_spec (n % 10) (Nat.mod_lt _ (by norm_num))).1

theorem valAcc_append (a : Nat) (l : List Char) (c : Char) :
    valAcc a (l ++ [c]) = valAcc a l * 10 + digitVal c := by
  simp [valAcc, List.foldl_append]

theorem valAcc_natToChars (fuel : Nat) :
    ∀ n a, n ≤ fuel →
      valAcc a (natToChars fuel n) = a * 10 ^ (natToChars fuel n).length + n := by
  induction fuel with
  | zero =>
    intro n a hn
    have h0 : n = 0 := Nat.le_zero.mp hn
    subst h0; simp [natToChars, valAcc]
  | succ f ih =>
    intro n a hn
    by_cases h0 : n = 0
    · subst h0; simp [natToChars, valAcc]
    · have hdiv : n / 10 ≤ f := by
        have := Nat.div_lt_self (Nat.pos_of_ne_zero h0) (by norm_num : 1 < 10)
        omega
      simp only [natToChars, if_neg h0]
      rw [valAcc_append, ih (n / 10) a hdiv,
        (dChar_spec (n % 10) (Nat.mod_lt _ (by norm_num))).2, List.length_append]
      have hmd : n / 10 * 10 + n % 10 = n := by omega
      calc (a * 10 ^ (natToChars f (n / 10)).length + n / 10) * 10 + n % 10
          = a * (10 ^ (natToChars f (n / 10)).length * 10) + (n / 10 * 10 + n % 10) := by
            ring
        _ = a * 10 ^ ((natToChars f (n / 10)).length + 1) + n := by
            rw [← pow_succ, hmd]
        _ = a * 10 ^ ((natToChars f (n / 10)).length + [dChar (n % 10)].length) + n := rfl

theorem natToChars_ne_nil (fuel n : Nat) (h1 : 0 < n) (h2 : n ≤ fuel) :
    natToChars fuel n ≠ [] := by
  cases fuel with
  | zero => omega
  | succ f =>
    simp only [natToChars, if_neg (by omega : ¬ n = 0)]
    simp

theorem natChars_digits (n : Nat) : ∀ c ∈ natChars n, isDigitCh c = true := by
  intro c hc
  by_cases h0 : n = 0
  · subst h0
    have : c = '0' := by simpa [natChars] using hc
    subst this; decide
  · exact natToChars_digits n n le_rfl c (by simpa [natChars, h0] using hc)

theorem natChars_ne_nil (n : Nat) : natChars n ≠ [] := by
  by_cases h0 : n = 0
  · subst h0; simp [natChars]
  · simp only [natChars, if_neg h0]
    exact natToChars_ne_nil n n (Nat.pos_of_ne_zero h0) le_rfl

theorem valDigits_natChars (n : Nat) : valDigits (natChars n) = n := by
  by_cases h0 : n = 0
  · subst h0; decide
  · simp only [natChars, if_neg h0, valDigits]
    have := valAcc_natToChars n n 0 le_rfl
    simpa using this

theorem takeWhile_all {p : Char → Bool} :
    ∀ l : List Char, (∀ c ∈ l, p c = true) → l.takeWhile p = l := by
  intro l h
  induction l with
  | nil => rfl
  | cons c r ih =>
    rw [List.takeWhile_cons, h c (by simp)]
    simp [ih (fun x hx => h x (by simp [hx]))]

theorem parseSign_digit (c : Char) (r : List Char) (h : isDigitCh c = true) :
    parseSign (c :: r) = (false, c :: r) := by
  have h48 : 48 ≤ c.toNat ∧ c.toNat ≤ 57 := by simpa [isDigitCh] using h
  simp only [parseSign]
  rw [if_neg (by omega), if_neg (by omega)]

theorem parseIntJS_digits (l : List Char) (hne : l ≠ [])
    (hd : ∀ c ∈ l, isDigitCh c = true) :
    parseIntJS (String.mk l) = JNum.int (Int.ofNat (valDigits l)) := by
  obtain ⟨c, r, hcr⟩ := List.exists_cons_of_ne_nil hne
  subst hcr
  unfold parseIntJS
  rw [data_mk, parseSign_digit c r (hd c (by simp))]
  simp only [takeWhile_all (c :: r) hd]
  rw [if_neg (by simp)]
  simp

theorem parseIntJS_intToStr (m : Int) : parseIntJS (intToStr m) = JNum.int m := by
  by_cases hm : m < 0
  · unfold intToStr
    rw [if_pos hm]
    have hk : 0 < m.natAbs := by omega
    unfold parseIntJS
    rw [data_mk]
    have hsgn : parseSign ('-' :: natChars m.natAbs) = (true, natChars m.natAbs) := by
      simp only [parseSign]
      rw [if_pos (by decide : ('-').toNat = 45)]
    rw [hsgn]
    simp only [takeWhile_all (natChars m.natAbs) (natChars_digits _)]
    rw [if_neg (by simpa using natChars_ne_nil m.natAbs)]
    rw [valDigits_natChars]
    congr 1
    simp only [if_true, Int.ofNat_eq_coe]
    omega
  · unfold intToStr
    rw [if_neg hm]
    rw [parseIntJS_digits (natChars m.toNat) (natChars_ne_nil _) (natChars_digits _),
      valDigits_natChars]
    congr 1
    simp only [Int.ofNat_eq_coe]
    omega

theorem intToStr_ne_nil (m : Int) : (intToStr m).data ≠ [] := by
  unfold intToStr
  by_cases hm : m < 0
  · rw [if_pos hm]; simp
  · rw [if_neg hm, data_mk]; exact natChars_ne_nil _

theorem sep_not_mem_intToStr (m : Int) (sep : Char)
    (h45 : sep.toNat ≠ 45) (hdig : sep.toNat < 48 ∨ 57 < sep.toNat) :
    sep ∉ (intToStr m).data := by
  intro hmem
  unfold intToStr at hmem
  by_cases hm : m < 0
  · rw [if_pos hm, data_mk] at hmem
    rcases List.mem_cons.mp hmem with h | h
    · subst h; exact h45 (by decide)
    · have h1 := natChars_digits m.natAbs sep h
      have h2 : 48 ≤ sep.toNat ∧ sep.toNat ≤ 57 := by simpa [isDigitCh] using h1
      omega
  · rw [if_neg hm, data_mk] at hmem
    have h1 := natChars_digits m.toNat sep hmem
    have h2 : 48 ≤ sep.toNat ∧ sep.toNat ≤ 57 := by simpa [isDigitCh] using h1
    omega

/-! ## Lemmas: the splitter -/

theorem splitChL_ne_nil (c : Char) (l : List Char) : splitChL c l ≠ [] := by
  induction l with
  | nil => simp [splitChL]
  | cons x xs ih =>
    simp only [splitChL]
    by_cases hx : x = c
    · simp [hx]
    · rw [if_neg hx]
      rcases h : splitChL c xs with _ | ⟨hh, tt⟩
      · simp
      · simp

theorem splitChL_no_sep (c : Char) (l : List Char) (h : c ∉ l) : splitChL c l = [l] := by
  induction l with
  | nil => rfl
  | cons x xs ih =>
    have hx : ¬ x = c := fun he => h (by simp [he])
    have hxs : c ∉ xs := fun hm => h (by simp [hm])
    simp only [splitChL, if_neg hx, ih hxs]

theorem splitChL_append (c : Char) (l1 l2 : List Char) (h : c ∉ l1) :
    splitChL c (l1 ++ c :: l2) = l1 :: splitChL c l2 := by
  induction l1 with
  | nil => simp [splitChL]
  | cons x xs ih =>
    have hx : ¬ x = c := fun he => h (by simp [he])
    have hxs : c ∉ xs := fun hm => h (by simp [hm])
    rw [List.cons_append]
    simp only [splitChL, if_neg hx, ih hxs]

theorem splitChL_two_of_mem (c : Char) (l : List Char) (h : c ∈ l) :
    ∃ a b rest, splitChL c l = a :: b :: rest := by
  induction l with
  | nil => cases h
  | cons x xs ih =>
    by_cases hx : x = c
    · obtain ⟨b, rest, hbr⟩ := List.exists_cons_of_ne_nil (splitChL_ne_nil c xs)
      exact ⟨[], b, rest, by simp [splitChL, hx, hbr]⟩
    · have hm : c ∈ xs := by
        rcases List.mem_cons.mp h with h1 | h1
        · exact absurd h1.symm hx
        · exact h1
      obtain ⟨a, b, rest, habr⟩ := ih hm
      exact ⟨x :: a, b, rest, by simp [splitChL, if_neg hx, habr]⟩

theorem jsSplit_no_sep (sep : Char) (s : String) (h : sep ∉ s.data) :
    jsSplit sep s = [s] := by
  unfold jsSplit
  rw [splitChL_no_sep sep _ h]
  simp [mk_data]

theorem jsSplit_concat (sep : Char) (sepStr : String) (hsep : sepStr.data = [sep])
    (s t : String) (h : sep ∉ s.data) :
    jsSplit sep (s ++ sepStr ++ t) = s :: jsSplit sep t := by
  unfold jsSplit
  rw [dataAppend, dataAppend, hsep, List.append_assoc, List.singleton_append,
    splitChL_append sep _ _ h]
  simp [mk_data]

theorem parseItem_two (sStr eStr : String) (hs : ':' ∉ sStr.data) (he : ':' ∉ eStr.data) :
    parseItem (sStr ++ ":" ++ eStr) =
      some ⟨(if sStr.length > 0 then some (parseIntJS sStr) else none),
            (if eStr.length > 0 then some (parseIntJS eStr) else none)⟩ := by
  have hdat : (sStr ++ ":" ++ eStr).data = sStr.data ++ [':'] ++ eStr.data := by
    rw [dataAppend, dataAppend]
  have hlen : ¬ (sStr ++ ":" ++ eStr).length = 0 := by
    rw [length_eq_data, hdat]
    simp
  have hsplit : jsSplit ':' (sStr ++ ":" ++ eStr) = [sStr, eStr] := by
    rw [jsSplit_concat ':' ":" rfl sStr eStr hs, jsSplit_no_sep ':' eStr he]
  simp only [parseItem, if_neg hlen, hsplit]
  rfl

/-! ## Claim C3 -/

/-- C3 (counterexample): the round-trip fails at the representable item
`{start: 0, end: 5}` with integer bounds `0 ≤ 5`; the `start ? start : ''`
template treats the bound `0` as falsy, so the item encodes as `":5"` and
decodes with `start = null` instead of `0`. -/
theorem codec_roundtrip_zero_counterexample :
    parseItem (stringifyItem ⟨some 0, some 5⟩) ≠
      some ⟨(some 0 : Option Int).map JNum.int, (some 5 : Option Int).map JNum.int⟩ := by
  decide

/-- C3 (amended): for items whose bounds are integers or absent, with every
present bound non-zero and `start ≤ end` when both are present,
`parseItem (stringifyItem item)` is the item with absent bounds normalized
to `null`. -/
theorem codec_roundtrip_nonzero_bounds (a b : Option Int)
    (ha : a ≠ some 0) (hb : b ≠ some 0)
    (_hab : ∀ m n, a = some m → b = some n → m ≤ n) :
    parseItem (stringifyItem ⟨a, b⟩) = some ⟨a.map JNum.int, b.map JNum.int⟩ := by
  have hcolon : ∀ m : Int, ':' ∉ (intToStr m).data := fun m =>
    sep_not_mem_intToStr m ':' (by decide) (by decide)
  have hpos : ∀ m : Int, (intToStr m).length > 0 := fun m => by
    rw [length_eq_data]
    exact List.length_pos.mpr (intToStr_ne_nil m)
  cases a with
  | none =>
    cases b with
    | none => rfl
    | some n =>
      have hn : n ≠ 0 := fun h => hb (by rw [h])
      have hstr : stringifyItem ⟨none, some n⟩ = "" ++ ":" ++ intToStr n := by
        simp [stringifyItem, jsNumTmpl, hn]
      rw [hstr, parseItem_two "" (intToStr n) (by simp) (hcolon n),
        if_neg (by decide), if_pos (hpos n), parseIntJS_intToStr]
      rfl
  | some m =>
    have hm : m ≠ 0 := fun h => ha (by rw [h])
    cases b with
    | none =>
      have hstr : stringifyItem ⟨some m, none⟩ = intToStr m ++ ":" ++ "" := by
        simp [stringifyItem, jsNumTmpl, hm]
      rw [hstr, parseItem_two (intToStr m) "" (hcolon m) (by simp),
        if_pos (hpos m), if_neg (by decide), parseIntJS_intToStr]
      rfl
    | some n =>
      have hn : n ≠ 0 := fun h => hb (by rw [h])
      have hstr : stringifyItem ⟨some m, some n⟩ = intToStr m ++ ":" ++ intToStr n := by
        simp [stringifyItem, jsNumTmpl, hm, hn]
      rw [hstr, parseItem_two (intToStr m) (intToStr n) (hcolon m) (hcolon n),
        if_pos (hpos m), if_pos (hpos n), parseIntJS_intToStr, parseIntJS_intToStr]
      rfl

/-- Witness for C3: the amended round-trip at the concrete item `{3, 7}`. -/
theorem codec_roundtrip_nonzero_bounds_witness :
    (some 3 : Option Int) ≠ some 0 ∧ (some 7 : Option Int) ≠ some 0 ∧
    parseItem (stringifyItem ⟨some 3, some 7⟩) =
      some ⟨(some 3 : Option Int).map JNum.int, (some 7 : Option Int).map JNum.int⟩ :=
  ⟨by decide, by decide,
    codec_roundtrip_nonzero_bounds (some 3) (some 7) (by decide) (by decide)
      (fun m n hm hn => by
        injection hm with hm1
        injection hn with hn1
        omega)⟩

/-! ## Claim C4 -/

/-- C4 (counterexample): on the non-empty colon-free string `"abc"`,
`parseItem` does not return a record: `split(':')` yields one element, so
`endStr` is `undefined` and the `endStr.length` read throws a TypeError
(modelled by `none`). -/
theorem parseItem_throws_on_colonless : parseItem "abc" = none := by decide

/-- C4 (amended): `parseItem` returns a `{start, end}` record on the empty
string and on every string containing a `:`; the empty string decodes to
`{start: null, end: null}`, and an empty half decodes to `null`. (On a
non-empty string with no `:` it throws instead.) -/
theorem parseItem_total_on_colon_strings (s : String)
    (h : s = "" ∨ ':' ∈ s.data) :
    ∃ st en, parseItem s = some ⟨st, en⟩ ∧
      (s = "" → st = none ∧ en = none) ∧
      ((jsSplit ':' s).get? 0 = some "" → st = none) ∧
      ((jsSplit ':' s).get? 1 = some "" → en = none) := by
  rcases h with h | h
  · subst h
    refine ⟨none, none, rfl, fun _ => ⟨rfl, rfl⟩, fun _ => rfl, fun hx => ?_⟩
    simp [jsSplit, splitChL] at hx
  · obtain ⟨a, b, rest, habr⟩ := splitChL_two_of_mem ':' s.data h
    have hsplit : jsSplit ':' s = String.mk a :: String.mk b :: rest.map String.mk := by
      simp [jsSplit, habr]
    have hne : s.data ≠ [] := by
      intro he
      rw [he] at h
      cases h
    have hlen : ¬ s.length = 0 := by
      rw [length_eq_data]
      intro hc
      exact hne (List.length_eq_zero.mp hc)
    have hpi : parseItem s =
        some ⟨(if (String.mk a).length > 0 then some (parseIntJS (String.mk a)) else none),
              (if (String.mk b).length > 0 then some (parseIntJS (String.mk b)) else none)⟩ := by
      simp only [parseItem, if_neg hlen, hsplit]
      rfl
    refine ⟨_, _, hpi, fun hse => absurd hse (by intro he; subst he; exact hne rfl), ?_, ?_⟩
    · intro h0
      rw [hsplit] at h0
      have ha : String.mk a = "" := by simpa using h0
      have ha2 : a = [] := by
        have := congrArg String.data ha
        simpa using this
      subst ha2
      simp [length_eq_data]
    · intro h1
      rw [hsplit] at h1
      have hb : String.mk b = "" := by simpa using h1
      have hb2 : b = [] := by
        have := congrArg String.data hb
        simpa using this
      subst hb2
      simp [length_eq_data]

/-- Witness for C4: at the concrete malformed-but-colonful string `":5"`. -/
theorem parseItem_total_on_colon_strings_witness :
    ((":5" : String) = "" ∨ ':' ∈ (":5" : String).data) ∧
    (∃ st en, parseItem ":5" = some ⟨st, en⟩ ∧
      ((":5" : String) = "" → st = none ∧ en = none) ∧
      ((jsSplit ':' ":5").get? 0 = some "" → st = none) ∧
      ((jsSplit ':' ":5").get? 1 = some "" → en = none)) :=
  ⟨Or.inr (by decide), parseItem_total_on_colon_strings ":5" (Or.inr (by decide))⟩

/-! ## Claim C1 -/

/-- C1: with facet stats `{min: 10, max: 20}`, the bucket `(10, 20)` is
flagged `noRefinement` (`itemHasRefinement` returns the `noRefinement` flag,
so "hasRefinement false" is the value `true` here) while the bucket `(5, 15)`
is not; and in general both overlap tests are strict, so a bucket whose
bounds are exactly the stats' `min` and `max` passes neither test. -/
theorem multiRange_overlap_strict_boundary :
    itemHasRefinement ⟨true, some ⟨10, 20⟩⟩ "10:20" = true ∧
    itemHasRefinement ⟨true, some ⟨10, 20⟩⟩ "5:15" = false ∧
    ∀ mn mx : Int,
      isRefinementsRangeIncludesInsideItemRange ⟨mn, mx⟩ (XNum.fin mn) (XNum.fin mx)
        = false ∧
      isItemRangeIncludedInsideRefinementsRange ⟨mn, mx⟩ (XNum.fin mn) (XNum.fin mx)
        = false := by
  refine ⟨by decide, by decide, fun mn mx => ⟨?_, ?_⟩⟩
  · simp only [isRefinementsRangeIncludesInsideItemRange, XNum.ltB,
      Bool.or_eq_false_iff, Bool.and_eq_false_iff, decide_eq_false_iff_not]
    omega
  · simp only [isItemRangeIncludedInsideRefinementsRange, XNum.ltB,
      Bool.or_eq_false_iff, Bool.and_eq_false_iff, decide_eq_false_iff_not]
    omega

/-! ## Claim C2 -/

/-- C2: whenever the current hierarchical refinement is an active path `p`,
the derived value of the node whose path is `p` itself — computed by
`toggle(p); toggle(p)` on a transient builder and reading the refinement
back — is the cleared refinement: the menu returns to the unrefined root
state. -/
theorem hierarchicalMenu_selfclick_clears (props : HMProps) (s : SVal) (ctx : Ctx)
    (p : String)
    (h : getCurrentRefinementHM props s ctx = some (RetVal.val (SVal.str p))) :
    getValueHM p props s ctx = some none := by
  unfold getValueHM
  rw [h]
  simp [toggleHierarchicalFacetRefinement]

/-- Witness for C2 at a concrete refined state. -/
theorem hierarchicalMenu_selfclick_clears_witness :
    getCurrentRefinementHM ⟨["cat"], none⟩
      (SVal.consO "hierarchicalMenu" (SVal.consO "cat" (SVal.str "A") SVal.nilO) SVal.nilO)
      (Ctx.single "i") = some (RetVal.val (SVal.str "A")) ∧
    getValueHM "A" ⟨["cat"], none⟩
      (SVal.consO "hierarchicalMenu" (SVal.consO "cat" (SVal.str "A") SVal.nilO) SVal.nilO)
      (Ctx.single "i") = some none :=
  ⟨by decide, hierarchicalMenu_selfclick_clears _ _ _ _ (by decide)⟩

/-! ## Claim C8 -/

theorem splitDots_namespace (ns id : String) (hns : '.' ∉ ns.data) :
    splitDots (ns ++ "." ++ id) = ns :: splitDots id := by
  unfold splitDots
  exact jsSplit_concat '.' "." rfl ns id hns

theorem getPath_cons (k : String) (rest : List String) (v : SVal) :
    getPath (k :: rest) v = (jsGet v k).bind (getPath rest) := rfl

theorem splitDots_mr (id : String) :
    splitDots ("multiRange." ++ id) = "multiRange" :: splitDots id := by
  unfold splitDots jsSplit
  have hdat : ("multiRange." ++ id).data = "multiRange".data ++ '.' :: id.data := by
    rw [dataAppend, (by decide : ("multiRange." : String).data = "multiRange".data ++ ['.'])]
    simp
  rw [hdat, splitChL_append '.' _ _ (by decide)]
  simp [mk_data]

theorem mr_read_stored_empty (props : MRProps) (m : String) (s : SVal)
    (h1 : lodashHas s (splitDots ("multiRange." ++ props.attributeName)) = true)
    (h2 : (jsGet s "multiRange").bind (fun x => jsGet x props.attributeName)
        = some (SVal.str "")) :
    getCurrentRefinementMR props s (Ctx.single m) = some (RetVal.val (SVal.str "")) := by
  obtain ⟨x, hx⟩ : ∃ x, jsGet s "multiRange" = some x := by
    rw [splitDots_mr, lodashHas, getPath_cons] at h1
    cases hgx : jsGet s "multiRange" with
    | none => rw [hgx] at h1; simp at h1
    | some x => exact ⟨x, rfl⟩
  have hv : jsGet x props.attributeName = some (SVal.str "") := by
    rw [hx] at h2
    simpa using h2
  unfold getCurrentRefinementMR
  simp only [hasMultipleIndex, getIndex, Bool.false_and, Bool.not_false, Bool.true_and,
    Bool.false_or]
  rw [h1]
  simp [hx, hv, jsChain]

theorem mr_read_absent (props : MRProps) (m : String) (t : SVal)
    (hd : jsTruthyOptStr props.defaultRefinement = false)
    (h3 : lodashHas t (splitDots ("multiRange." ++ props.attributeName)) = false) :
    getCurrentRefinementMR props t (Ctx.single m) = some (RetVal.val (SVal.str "")) := by
  unfold getCurrentRefinementMR
  simp only [hasMultipleIndex, getIndex, Bool.false_and, Bool.not_false, Bool.true_and,
    Bool.false_or]
  rw [h3]
  simp
  cases hdr : props.defaultRefinement with
  | none => rfl
  | some d =>
    rw [hdr] at hd
    have hde : d = "" := by simpa [jsTruthyOptStr] using hd
    subst hde
    rfl

theorem hm_read_stored_empty (props : HMProps) (m : String) (s : SVal)
    (h1 : lodashHas s ["hierarchicalMenu", getIdHM props] = true)
    (h2 : (jsGet s "hierarchicalMenu").bind (fun x => jsGet x (getIdHM props))
        = some (SVal.str "")) :
    getCurrentRefinementHM props s (Ctx.single m) = some RetVal.null := by
  obtain ⟨x, hx⟩ : ∃ x, jsGet s "hierarchicalMenu" = some x := by
    rw [lodashHas, getPath_cons] at h1
    cases hgx : jsGet s "hierarchicalMenu" with
    | none => rw [hgx] at h1; simp at h1
    | some x => exact ⟨x, rfl⟩
  have hv : jsGet x (getIdHM props) = some (SVal.str "") := by
    rw [hx] at h2
    simpa using h2
  unfold getCurrentRefinementHM
  simp only [hasMultipleIndex, getIndex, Bool.false_and, Bool.not_false, Bool.true_and,
    Bool.false_or]
  rw [h1]
  simp [hx, hv, jsChain]

theorem hm_read_absent (props : HMProps) (m : String) (t : SVal)
    (hd : jsTruthyOptStr props.defaultRefinement = false)
    (h3 : lodashHas t ["hierarchicalMenu", getIdHM props] = false) :
    getCurrentRefinementHM props t (Ctx.single m) = some RetVal.null := by
  unfold getCurrentRefinementHM
  simp only [hasMultipleIndex, getIndex, Bool.false_and, Bool.not_false, Bool.true_and,
    Bool.false_or]
  rw [h3]
  simp
  cases hdr : props.defaultRefinement with
  | none => rfl
  | some d =>
    rw [hdr] at hd
    have hde : d = "" := by simpa [jsTruthyOptStr] using hd
    subst hde
    rfl

theorem getPath_nil (v : SVal) : getPath [] v = some v := rfl

theorem getPath_two (k1 k2 : String) (s : SVal) :
    getPath [k1, k2] s = (jsGet s k1).bind (fun x => jsGet x k2) := by
  cases hg : jsGet s k1 with
  | none => simp [getPath, hg]
  | some x => cases hg2 : jsGet x k2 <;> simp [getPath, hg, hg2]

theorem getPath_cons_some (k : String) (rest : List String) (s v : SVal)
    (h : getPath (k :: rest) s = some v) :
    ∃ a, jsGet s k = some a ∧ getPath rest a = some v := by
  rw [getPath_cons] at h
  cases hg : jsGet s k with
  | none => rw [hg] at h; simp at h
  | some a =>
    rw [hg] at h
    exact ⟨a, rfl, by simpa using h⟩

theorem mr_read_stored_empty_any (props : MRProps) (ctx : Ctx) (s : SVal)
    (h1 : lodashHas s (mrHasPath props.attributeName ctx) = true)
    (h2 : getPath (mrEntryPath props.attributeName ctx) s = some (SVal.str "")) :
    getCurrentRefinementMR props s ctx = some (RetVal.val (SVal.str "")) := by
  cases ctx with
  | single m =>
    refine mr_read_stored_empty props m s (by simpa [mrHasPath] using h1) ?_
    rw [← getPath_two]
    simpa [mrEntryPath] using h2
  | multi idx =>
    simp only [mrHasPath] at h1
    simp only [mrEntryPath] at h2
    obtain ⟨a, hA, h2a⟩ := getPath_cons_some _ _ _ _ h2
    obtain ⟨b, hB, h2b⟩ := getPath_cons_some _ _ _ _ h2a
    obtain ⟨c, hC, h2c⟩ := getPath_cons_some _ _ _ _ h2b
    have hD : jsGet c props.attributeName = some (SVal.str "") := by
      obtain ⟨d, hD1, hD2⟩ := getPath_cons_some _ _ _ _ h2c
      have hdv : d = SVal.str "" := by simpa [getPath] using hD2
      subst hdv
      exact hD1
    unfold getCurrentRefinementMR
    simp only [hasMultipleIndex, getIndex, Bool.true_and, Bool.not_true, Bool.false_and,
      Bool.or_false]
    rw [h1]
    simp [hA, hB, hC, hD, jsChain]

theorem mr_read_absent_any (props : MRProps) (ctx : Ctx) (t : SVal)
    (hd : jsTruthyOptStr props.defaultRefinement = false)
    (h3 : lodashHas t (mrHasPath props.attributeName ctx) = false) :
    getCurrentRefinementMR props t ctx = some (RetVal.val (SVal.str "")) := by
  cases ctx with
  | single m => exact mr_read_absent props m t hd (by simpa [mrHasPath] using h3)
  | multi idx =>
    simp only [mrHasPath] at h3
    unfold getCurrentRefinementMR
    simp only [hasMultipleIndex, getIndex, Bool.true_and, Bool.not_true, Bool.false_and,
      Bool.or_false]
    rw [h3]
    simp
    cases hdr : props.defaultRefinement with
    | none => rfl
    | some d =>
      rw [hdr] at hd
      have hde : d = "" := by simpa [jsTruthyOptStr] using hd
      subst hde
      rfl

theorem hm_read_stored_empty_any (props : HMProps) (ctx : Ctx) (u : SVal)
    (h2 : getPath (hmEntryPath (getIdHM props) ctx) u = some (SVal.str "")) :
    getCurrentRefinementHM props u ctx = some RetVal.null := by
  cases ctx with
  | single m =>
    simp only [hmEntryPath] at h2
    refine hm_read_stored_empty props m u (by simp [lodashHas, h2]) ?_
    rw [← getPath_two]
    exact h2
  | multi idx =>
    simp only [hmEntryPath] at h2
    have h1 : lodashHas u ["indices", idx, "hierarchicalMenu", getIdHM props] = true := by
      simp [lodashHas, h2]
    obtain ⟨a, hA, h2a⟩ := getPath_cons_some _ _ _ _ h2
    obtain ⟨b, hB, h2b⟩ := getPath_cons_some _ _ _ _ h2a
    obtain ⟨c, hC, h2c⟩ := getPath_cons_some _ _ _ _ h2b
    have hD : jsGet c (getIdHM props) = some (SVal.str "") := by
      obtain ⟨d, hD1, hD2⟩ := getPath_cons_some _ _ _ _ h2c
      have hdv : d = SVal.str "" := by simpa [getPath] using hD2
      subst hdv
      exact hD1
    unfold getCurrentRefinementHM
    simp only [hasMultipleIndex, getIndex, Bool.true_and, Bool.not_true, Bool.false_and,
      Bool.or_false]
    rw [h1]
    simp [hA, hB, hC, hD, jsChain]

theorem hm_read_absent_any (props : HMProps) (ctx : Ctx) (w : SVal)
    (hd : jsTruthyOptStr props.defaultRefinement = false)
    (h6 : lodashHas w (hmEntryPath (getIdHM props) ctx) = false) :
    getCurrentRefinementHM props w ctx = some RetVal.null := by
  cases ctx with
  | single m => exact hm_read_absent props m w hd (by simpa [hmEntryPath] using h6)
  | multi idx =>
    simp only [hmEntryPath] at h6
    unfold getCurrentRefinementHM
    simp only [hasMultipleIndex, getIndex, Bool.true_and, Bool.not_true, Bool.false_and,
      Bool.or_false]
    rw [h6]
    simp
    cases hdr : props.defaultRefinement with
    | none => rfl
    | some d =>
      rw [hdr] at hd
      have hde : d = "" := by simpa [jsTruthyOptStr] using hd
      subst hde
      rfl

/-- C8 (counterexample): with `defaultRefinement: "0:10"`, the multi-range
read of a state whose entry holds the empty string (the clear sentinel)
differs from the read of a state without the entry — the latter falls back
to the default. -/
theorem clear_sentinel_default_counterexample :
    getCurrentRefinementMR ⟨"price", some "0:10", []⟩
      (SVal.consO "multiRange" (SVal.consO "price" (SVal.str "") SVal.nilO) SVal.nilO)
      (Ctx.single "i")
    ≠ getCurrentRefinementMR ⟨"price", some "0:10", []⟩ SVal.nilO (Ctx.single "i") := by
  decide

/-- C8 (amended): when `defaultRefinement` is not a truthy string, reading
the refinement of a state whose widget entry holds the empty string gives
the same result as reading a state without the entry, for both connectors
with the empty-string clear sentinel and in both single- and multi-index
position: multiRange reads `''` in both cases, hierarchicalMenu reads
`null` in both cases. (`mrHasPath`/`mrEntryPath`/`hmEntryPath` are the has-
check and literal read paths each `getCurrentRefinement` uses per context.)
With a truthy default the two reads differ — the sentinel suppresses the
default, an absent entry does not. -/
theorem clear_sentinel_without_default (mp : MRProps) (hp : HMProps) (ctx : Ctx)
    (s t u w : SVal)
    (hd1 : jsTruthyOptStr mp.defaultRefinement = false)
    (hd2 : jsTruthyOptStr hp.defaultRefinement = false)
    (h1 : lodashHas s (mrHasPath mp.attributeName ctx) = true)
    (h2 : getPath (mrEntryPath mp.attributeName ctx) s = some (SVal.str ""))
    (h3 : lodashHas t (mrHasPath mp.attributeName ctx) = false)
    (h5 : getPath (hmEntryPath (getIdHM hp) ctx) u = some (SVal.str ""))
    (h6 : lodashHas w (hmEntryPath (getIdHM hp) ctx) = false) :
    getCurrentRefinementMR mp s ctx = getCurrentRefinementMR mp t ctx
    ∧ getCurrentRefinementHM hp u ctx = getCurrentRefinementHM hp w ctx := by
  constructor
  · rw [mr_read_stored_empty_any mp ctx s h1 h2, mr_read_absent_any mp ctx t hd1 h3]
  · rw [hm_read_stored_empty_any hp ctx u h5, hm_read_absent_any hp ctx w hd2 h6]

/-- Witness for C8 at concrete states and ids, in single-index and in
multi-index position. -/
theorem clear_sentinel_without_default_witness :
    jsTruthyOptStr (none : Option String) = false ∧
    (getCurrentRefinementMR ⟨"price", none, []⟩
        (SVal.consO "multiRange" (SVal.consO "price" (SVal.str "") SVal.nilO) SVal.nilO)
        (Ctx.single "i")
      = getCurrentRefinementMR ⟨"price", none, []⟩ SVal.nilO (Ctx.single "i")
    ∧ getCurrentRefinementHM ⟨["cat"], none⟩
        (SVal.consO "hierarchicalMenu" (SVal.consO "cat" (SVal.str "") SVal.nilO) SVal.nilO)
        (Ctx.single "i")
      = getCurrentRefinementHM ⟨["cat"], none⟩ SVal.nilO (Ctx.single "i"))
    ∧ (getCurrentRefinementMR ⟨"price", none, []⟩
        (SVal.consO "indices"
          (SVal.consO "idx"
            (SVal.consO "multiRange" (SVal.consO "price" (SVal.str "") SVal.nilO)
              SVal.nilO)
            SVal.nilO)
          SVal.nilO)
        (Ctx.multi "idx")
      = getCurrentRefinementMR ⟨"price", none, []⟩ SVal.nilO (Ctx.multi "idx")
    ∧ getCurrentRefinementHM ⟨["cat"], none⟩
        (SVal.consO "indices"
          (SVal.consO "idx"
            (SVal.consO "hierarchicalMenu" (SVal.consO "cat" (SVal.str "") SVal.nilO)
              SVal.nilO)
            SVal.nilO)
          SVal.nilO)
        (Ctx.multi "idx")
      = getCurrentRefinementHM ⟨["cat"], none⟩ SVal.nilO (Ctx.multi "idx")) :=
  ⟨by decide,
    clear_sentinel_without_default ⟨"price", none, []⟩ ⟨["cat"], none⟩ (Ctx.single "i")
      (SVal.consO "multiRange" (SVal.consO "price" (SVal.str "") SVal.nilO) SVal.nilO)
      SVal.nilO
      (SVal.consO "hierarchicalMenu" (SVal.consO "cat" (SVal.str "") SVal.nilO) SVal.nilO)
      SVal.nilO
      (by decide) (by decide) (by decide) (by decide) (by decide) (by decide) (by decide),
    clear_sentinel_without_default ⟨"price", none, []⟩ ⟨["cat"], none⟩ (Ctx.multi "idx")
      (SVal.consO "indices"
        (SVal.consO "idx"
          (SVal.consO "multiRange" (SVal.consO "price" (SVal.str "") SVal.nilO) SVal.nilO)
          SVal.nilO)
        SVal.nilO)
      SVal.nilO
      (SVal.consO "indices"
        (SVal.consO "idx"
          (SVal.consO "hierarchicalMenu" (SVal.consO "cat" (SVal.str "") SVal.nilO)
            SVal.nilO)
          SVal.nilO)
        SVal.nilO)
      SVal.nilO
      (by decide) (by decide) (by decide) (by decide) (by decide) (by decide) (by decide)⟩

/-! ## Lemmas: state-tree operations -/

theorem jsGet_mapAtKey (s : SVal) (k : String) (f : SVal → SVal) :
    jsGet (mapAtKey s k f) k = (jsGet s k).map f := by
  induction s with
  | str s0 => rfl
  | nilO => rfl
  | consO k2 v rest ihv ihrest =>
    by_cases hk : k2 = k
    · subst hk; simp [mapAtKey, jsGet]
    · simp [mapAtKey, jsGet, hk, ihrest]

theorem removeKey_mapAtKey (s : SVal) (k : String) (f : SVal → SVal) :
    removeKey (mapAtKey s k f) k = removeKey s k := by
  induction s with
  | str s0 => rfl
  | nilO => rfl
  | consO k2 v rest ihv ihrest =>
    by_cases hk : k2 = k
    · subst hk; simp [mapAtKey, removeKey, ihrest]
    · simp [mapAtKey, removeKey, hk, ihrest]

theorem jsGet_removeKey (s : SVal) (k : String) : jsGet (removeKey s k) k = none := by
  induction s with
  | str s0 => rfl
  | nilO => rfl
  | consO k2 v rest ihv ihrest =>
    by_cases hk : k2 = k
    · subst hk; simp [removeKey, ihrest]
    · simp [removeKey, jsGet, hk, ihrest]

theorem sole_occupant_remove (inner : SVal) (id : String)
    (hk : keysOf inner = [id]) (ho : isObjSpine inner = true) :
    removeKey inner id = SVal.nilO := by
  cases inner with
  | str s => simp [isObjSpine] at ho
  | nilO => simp [keysOf] at hk
  | consO k v rest =>
    have hkr : k = id ∧ keysOf rest = [] := by simpa [keysOf] using hk
    obtain ⟨hkid, hrest⟩ := hkr
    subst hkid
    have hnil : rest = SVal.nilO := by
      cases rest with
      | str s => simp [isObjSpine] at ho
      | nilO => rfl
      | consO a b c => simp [keysOf] at hrest
    subst hnil
    simp [removeKey]

theorem jsGet_setKey_self (s : SVal) (k : String) (v : SVal) :
    jsGet (setKey s k v) k = some v := by
  induction s with
  | str s0 => simp [setKey, jsGet]
  | nilO => simp [setKey, jsGet]
  | consO k2 v2 rest ihv ihrest =>
    by_cases hk : k2 = k
    · subst hk; simp [setKey, jsGet]
    · simp [setKey, jsGet, hk, ihrest]

theorem jsGet_setKey_ne (s : SVal) (k k2 : String) (v : SVal) (h : k2 ≠ k) :
    jsGet (setKey s k v) k2 = jsGet s k2 := by
  have hne : ¬ k = k2 := fun he => h he.symm
  induction s with
  | str s0 => simp [setKey, jsGet, hne]
  | nilO => simp [setKey, jsGet, hne]
  | consO k3 v2 rest ihv ihrest =>
    by_cases hk : k3 = k
    · subst hk
      simp [setKey, jsGet, hne]
    · simp [setKey, jsGet, hk, ihrest]

/-! ## Claim C5 -/

/-- C5 (code bug): `cleanUp` of connectHierarchicalMenu calls lodash
`unset(searchState, ...)`, which deletes the entry from the searchState
object passed in: at the state `{hierarchicalMenu: {category: "a"}}` the
caller's object is `{hierarchicalMenu: {}}` after the call, not the original
input. (The multiRange/sortBy cleanUps use the non-mutating `omit`.) -/
theorem cleanUpHM_mutates_input :
    (cleanUpHM ⟨["category"], none⟩
      (SVal.consO "hierarchicalMenu" (SVal.consO "category" (SVal.str "a") SVal.nilO)
        SVal.nilO)
      (Ctx.single "i")).2
    = SVal.consO "hierarchicalMenu" SVal.nilO SVal.nilO
    ∧ (cleanUpHM ⟨["category"], none⟩
      (SVal.consO "hierarchicalMenu" (SVal.consO "category" (SVal.str "a") SVal.nilO)
        SVal.nilO)
      (Ctx.single "i")).2
    ≠ SVal.consO "hierarchicalMenu" (SVal.consO "category" (SVal.str "a") SVal.nilO)
        SVal.nilO :=
  ⟨by decide, by decide⟩

/-! ## Claim C6 -/

theorem cleanUpMR_single_sole (props : MRProps) (m : String) (s : SVal) (inner : SVal)
    (hdot : '.' ∉ props.attributeName.data)
    (hget : jsGet s "multiRange" = some inner)
    (hk : keysOf inner = [props.attributeName])
    (ho : isObjSpine inner = true) :
    cleanUpMR props s (Ctx.single m) = removeKey s "multiRange" := by
  have hpath : splitDots ("multiRange" ++ "." ++ props.attributeName)
      = ["multiRange", props.attributeName] := by
    rw [splitDots_namespace "multiRange" _ (by decide)]
    unfold splitDots
    rw [jsSplit_no_sep '.' _ hdot]
  have hclean : unsetPath ["multiRange", props.attributeName] s
      = mapAtKey s "multiRange" (unsetPath [props.attributeName]) := rfl
  have hinner : unsetPath [props.attributeName] inner = SVal.nilO := by
    show removeKey inner props.attributeName = SVal.nilO
    exact sole_occupant_remove inner _ hk ho
  unfold cleanUpMR
  simp only [hasMultipleIndex, Bool.false_and, Bool.false_eq_true, if_false]
  rw [hpath, hclean, jsGet_mapAtKey, hget]
  simp only [Option.map_some']
  simp [hinner, lodashIsEmptyO, removeKey_mapAtKey]

theorem cleanUpHM_single_sole (props : HMProps) (m : String) (u : SVal) (inner : SVal)
    (hget : jsGet u "hierarchicalMenu" = some inner)
    (hk : keysOf inner = [getIdHM props])
    (ho : isObjSpine inner = true) :
    (cleanUpHM props u (Ctx.single m)).1 = removeKey u "hierarchicalMenu" := by
  have hclean : unsetPath ["hierarchicalMenu", getIdHM props] u
      = mapAtKey u "hierarchicalMenu" (unsetPath [getIdHM props]) := rfl
  have hinner : unsetPath [getIdHM props] inner = SVal.nilO := by
    show removeKey inner (getIdHM props) = SVal.nilO
    exact sole_occupant_remove inner _ hk ho
  unfold cleanUpHM
  simp only [hasMultipleIndex, Bool.false_and, Bool.false_eq_true, if_false]
  rw [hclean, jsGet_mapAtKey, hget]
  simp only [Option.map_some']
  simp [hinner, lodashIsEmptyO, removeKey_mapAtKey]

theorem cleanUpSB_single (w : SVal) (m : String) :
    cleanUpSB w (Ctx.single m) = removeKey w "sortBy" := by
  unfold cleanUpSB
  simp [hasMultipleIndex]

/-- C6 (counterexample): in multi-index position, connectMultiRange's
`cleanUp` of a state where the widget is the sole occupant of
`indices.idx.multiRange` returns a state that still contains the now-empty
namespace object: the pruning step checks the top-level `multiRange` key
only. -/
theorem cleanup_multi_index_leaves_empty_namespace :
    getPath ["indices", "idx", "multiRange"]
      (cleanUpMR ⟨"price", none, []⟩
        (SVal.consO "indices"
          (SVal.consO "idx"
            (SVal.consO "multiRange" (SVal.consO "price" (SVal.str "1:2") SVal.nilO)
              SVal.nilO)
            SVal.nilO)
          SVal.nilO)
        (Ctx.multi "idx"))
    = some SVal.nilO := by
  decide

/-- C6 (amended): in single-index position, for all three connectors, when
the widget is the sole occupant of its namespace (attribute names without a
`.` for multiRange, whose cleanUp path is split on dots), `cleanUp` returns
the state with the whole namespace binding removed — neither the widget's
id entry nor an empty namespace object remains. In multi-index position the
emptied per-index namespace object is left behind instead. -/
theorem cleanup_single_index_no_empty_containers (mp : MRProps) (hp : HMProps)
    (m : String) (s u w : SVal) (innerM innerH : SVal)
    (hdot : '.' ∉ mp.attributeName.data)
    (hgs : jsGet s "multiRange" = some innerM)
    (hks : keysOf innerM = [mp.attributeName])
    (hos : isObjSpine innerM = true)
    (hgu : jsGet u "hierarchicalMenu" = some innerH)
    (hku : keysOf innerH = [getIdHM hp])
    (hou : isObjSpine innerH = true)
    (_hw : (jsGet w "sortBy").isSome = true) :
    (cleanUpMR mp s (Ctx.single m) = removeKey s "multiRange"
      ∧ jsGet (cleanUpMR mp s (Ctx.single m)) "multiRange" = none)
    ∧ ((cleanUpHM hp u (Ctx.single m)).1 = removeKey u "hierarchicalMenu"
      ∧ jsGet ((cleanUpHM hp u (Ctx.single m)).1) "hierarchicalMenu" = none)
    ∧ (cleanUpSB w (Ctx.single m) = removeKey w "sortBy"
      ∧ jsGet (cleanUpSB w (Ctx.single m)) "sortBy" = none) := by
  have h1 := cleanUpMR_single_sole mp m s innerM hdot hgs hks hos
  have h2 := cleanUpHM_single_sole hp m u innerH hgu hku hou
  have h3 := cleanUpSB_single w m
  exact ⟨⟨h1, by rw [h1, jsGet_removeKey]⟩,
    ⟨h2, by rw [h2, jsGet_removeKey]⟩,
    ⟨h3, by rw [h3, jsGet_removeKey]⟩⟩

/-- Witness for C6 at concrete sole-occupant states. -/
theorem cleanup_single_index_no_empty_containers_witness :
    ('.' ∉ ("price" : String).data ∧
      jsGet (SVal.consO "multiRange" (SVal.consO "price" (SVal.str "1:2") SVal.nilO)
          (SVal.consO "page" (SVal.str "3") SVal.nilO)) "multiRange"
        = some (SVal.consO "price" (SVal.str "1:2") SVal.nilO))
    ∧ (cleanUpMR ⟨"price", none, []⟩
        (SVal.consO "multiRange" (SVal.consO "price" (SVal.str "1:2") SVal.nilO)
          (SVal.consO "page" (SVal.str "3") SVal.nilO))
        (Ctx.single "i")
      = removeKey (SVal.consO "multiRange" (SVal.consO "price" (SVal.str "1:2") SVal.nilO)
          (SVal.consO "page" (SVal.str "3") SVal.nilO)) "multiRange"
      ∧ jsGet (cleanUpMR ⟨"price", none, []⟩
          (SVal.consO "multiRange" (SVal.consO "price" (SVal.str "1:2") SVal.nilO)
            (SVal.consO "page" (SVal.str "3") SVal.nilO))
          (Ctx.single "i")) "multiRange" = none)
    ∧ ((cleanUpHM ⟨["cat"], none⟩
        (SVal.consO "hierarchicalMenu" (SVal.consO "cat" (SVal.str "A") SVal.nilO)
          SVal.nilO)
        (Ctx.single "i")).1
      = removeKey (SVal.consO "hierarchicalMenu" (SVal.consO "cat" (SVal.str "A") SVal.nilO)
          SVal.nilO) "hierarchicalMenu"
      ∧ jsGet ((cleanUpHM ⟨["cat"], none⟩
          (SVal.consO "hierarchicalMenu" (SVal.consO "cat" (SVal.str "A") SVal.nilO)
            SVal.nilO)
          (Ctx.single "i")).1) "hierarchicalMenu" = none)
    ∧ (cleanUpSB (SVal.consO "sortBy" (SVal.str "x") SVal.nilO) (Ctx.single "i")
      = removeKey (SVal.consO "sortBy" (SVal.str "x") SVal.nilO) "sortBy"
      ∧ jsGet (cleanUpSB (SVal.consO "sortBy" (SVal.str "x") SVal.nilO) (Ctx.single "i"))
          "sortBy" = none) :=
  ⟨⟨by decide, by decide⟩,
    cleanup_single_index_no_empty_containers ⟨"price", none, []⟩ ⟨["cat"], none⟩ "i"
      (SVal.consO "multiRange" (SVal.consO "price" (SVal.str "1:2") SVal.nilO)
        (SVal.consO "page" (SVal.str "3") SVal.nilO))
      (SVal.consO "hierarchicalMenu" (SVal.consO "cat" (SVal.str "A") SVal.nilO) SVal.nilO)
      (SVal.consO "sortBy" (SVal.str "x") SVal.nilO)
      (SVal.consO "price" (SVal.str "1:2") SVal.nilO)
      (SVal.consO "cat" (SVal.str "A") SVal.nilO)
      (by decide) (by decide) (by decide) (by decide) (by decide) (by decide) (by decide)
      (by decide)⟩

/-! ## Claim C10 -/

/-- C10: in multi-index mode, connectSortBy's `refine` binds the top-level
`indices` key to an object holding only the targeted index's `sortBy` entry
— refinements under other index names and other namespaces under the
targeted index are gone — while every other top-level key of the search
state is preserved. -/
theorem sortBy_refine_replaces_indices (s : SVal) (target next : String) :
    jsGet (refineSB s (SVal.str next) (Ctx.multi target)) "indices"
      = some (SVal.consO target (SVal.consO "sortBy" (SVal.str next) SVal.nilO) SVal.nilO)
    ∧ ∀ k, k ≠ "indices" →
        jsGet (refineSB s (SVal.str next) (Ctx.multi target)) k = jsGet s k := by
  constructor
  · unfold refineSB
    exact jsGet_setKey_self s "indices" _
  · intro k hk
    unfold refineSB
    exact jsGet_setKey_ne s "indices" k _ hk

/-- Witness for C10: a state carrying another index's refinement and a
second top-level key. -/
theorem sortBy_refine_replaces_indices_witness :
    (jsGet (refineSB
        (SVal.consO "indices"
          (SVal.consO "other" (SVal.consO "sortBy" (SVal.str "x") SVal.nilO) SVal.nilO)
          (SVal.consO "page" (SVal.str "3") SVal.nilO))
        (SVal.str "price_asc") (Ctx.multi "idx")) "indices"
      = some (SVal.consO "idx" (SVal.consO "sortBy" (SVal.str "price_asc") SVal.nilO)
          SVal.nilO))
    ∧ ("page" : String) ≠ "indices"
    ∧ jsGet (refineSB
        (SVal.consO "indices"
          (SVal.consO "other" (SVal.consO "sortBy" (SVal.str "x") SVal.nilO) SVal.nilO)
          (SVal.consO "page" (SVal.str "3") SVal.nilO))
        (SVal.str "price_asc") (Ctx.multi "idx")) "page"
      = jsGet (SVal.consO "indices"
          (SVal.consO "other" (SVal.consO "sortBy" (SVal.str "x") SVal.nilO) SVal.nilO)
          (SVal.consO "page" (SVal.str "3") SVal.nilO)) "page" :=
  ⟨(sortBy_refine_replaces_indices
      (SVal.consO "indices"
        (SVal.consO "other" (SVal.consO "sortBy" (SVal.str "x") SVal.nilO) SVal.nilO)
        (SVal.consO "page" (SVal.str "3") SVal.nilO)) "idx" "price_asc").1,
    by decide,
    (sortBy_refine_replaces_indices
      (SVal.consO "indices"
        (SVal.consO "other" (SVal.consO "sortBy" (SVal.str "x") SVal.nilO) SVal.nilO)
        (SVal.consO "page" (SVal.str "3") SVal.nilO)) "idx" "price_asc").2 "page"
      (by decide)⟩

/-! ## Claim C7 -/

theorem numeric_step (b : SearchParams) (a op : String) (x : Option JNum) :
    (match x with
      | some (JNum.int n) => if n = 0 then b else addNumericRefinement b a op n
      | _ => b).numericRefinements
    = b.numericRefinements
      ++ (match x with
          | some (JNum.int n) => if n = 0 then [] else [(a, op, n)]
          | _ => []) := by
  rcases x with _ | x
  · simp
  · cases x with
    | nan => simp
    | int n =>
      by_cases hn : n = 0
      · simp [hn]
      · simp [hn, addNumericRefinement]

/-- C7: whenever `getSearchParameters` of connectMultiRange runs without
throwing, the numeric refinements it adds over the incoming builder are
exactly a `>=` for the decoded `start` and a `<=` for the decoded `end`,
each present iff that bound is a non-zero integer (truthy): a `null`, `NaN`
or exactly-`0` bound adds nothing, so a `0` bound is never sent. -/
theorem numeric_refinement_truthy_gate (sp : SearchParams) (props : MRProps)
    (searchState : SVal) (ctx : Ctx) (cur : RetVal) (item : ParsedItem)
    (hc : getCurrentRefinementMR props searchState ctx = some cur)
    (hi : parseItemRV cur = some item) :
    ∃ out, getSearchParametersMR sp props searchState ctx = some out ∧
      out.numericRefinements = sp.numericRefinements
        ++ (match item.start with
            | some (JNum.int n) => if n = 0 then [] else [(props.attributeName, ">=", n)]
            | _ => [])
        ++ (match item.end_ with
            | some (JNum.int n) => if n = 0 then [] else [(props.attributeName, "<=", n)]
            | _ => []) := by
  unfold getSearchParametersMR
  rw [hc]
  simp only [Option.bind_eq_bind', Option.some_bind]
  rw [hi]
  simp only [Option.some_bind]
  refine ⟨_, rfl, ?_⟩
  rw [numeric_step, numeric_step]
  simp [addDisjunctiveFacet, List.append_assoc]

/-- Witness for C7: with stored refinement `"0:5"`, the decoded start is the
integer `0` and only the `<=` refinement is added. -/
theorem numeric_refinement_truthy_gate_witness :
    getCurrentRefinementMR ⟨"price", none, []⟩
      (SVal.consO "multiRange" (SVal.consO "price" (SVal.str "0:5") SVal.nilO) SVal.nilO)
      (Ctx.single "i") = some (RetVal.val (SVal.str "0:5"))
    ∧ parseItemRV (RetVal.val (SVal.str "0:5"))
      = some ⟨some (JNum.int 0), some (JNum.int 5)⟩
    ∧ ∃ out, getSearchParametersMR ⟨[], []⟩ ⟨"price", none, []⟩
        (SVal.consO "multiRange" (SVal.consO "price" (SVal.str "0:5") SVal.nilO) SVal.nilO)
        (Ctx.single "i") = some out ∧
        out.numericRefinements = ([] : List (String × String × Int))
          ++ (match (some (JNum.int 0) : Option JNum) with
              | some (JNum.int n) => if n = 0 then [] else [(("price" : String), ">=", n)]
              | _ => [])
          ++ (match (some (JNum.int 5) : Option JNum) with
              | some (JNum.int n) => if n = 0 then [] else [(("price" : String), "<=", n)]
              | _ => []) :=
  ⟨by decide, by decide,
    numeric_refinement_truthy_gate ⟨[], []⟩ ⟨"price", none, []⟩
      (SVal.consO "multiRange" (SVal.consO "price" (SVal.str "0:5") SVal.nilO) SVal.nilO)
      (Ctx.single "i") (RetVal.val (SVal.str "0:5")) ⟨some (JNum.int 0), some (JNum.int 5)⟩
      (by decide) (by decide)⟩

/-! ## Claim C9 -/

theorem countP_value_map_gen (l : List MRItem) (f : MRItem → PItem)
    (hf : ∀ item, (f item).value = stringifyItem ⟨item.start, item.end_⟩) :
    (l.map f).countP (fun it => it.value == "")
      = l.countP (fun it => stringifyItem ⟨it.start, it.end_⟩ == "") := by
  induction l with
  | nil => rfl
  | cons a t ih => simp [List.countP_cons, hf a, ih]

theorem any_value_map_gen (l : List MRItem) (f : MRItem → PItem)
    (hf : ∀ item, (f item).value = stringifyItem ⟨item.start, item.end_⟩) :
    (l.map f).any (fun it => it.value == "")
      = l.any (fun it => stringifyItem ⟨it.start, it.end_⟩ == "") := by
  induction l with
  | nil => rfl
  | cons a t ih => simp [hf a, ih]

/-- C9 (counterexample): two supplied items that both encode to the empty
string (both bounds absent) make the derived list carry the empty-string
value twice — so the "All" pseudo-item is not present exactly once. -/
theorem all_pseudo_item_duplicate_counterexample :
    (getProvidedItemsMR ⟨"price", none, [⟨none, none, none⟩, ⟨none, none, none⟩]⟩
        SVal.nilO (Ctx.single "i") none).map
      (fun l => l.countP (fun it => it.value == "")) = some 2
    ∧ (getProvidedItemsMR ⟨"price", none, [⟨none, none, none⟩, ⟨none, none, none⟩]⟩
        SVal.nilO (Ctx.single "i") none).map
      (fun l => l.countP (fun it => it.value == "")) ≠ some 1 :=
  ⟨by decide, by decide⟩

/-- C9 (amended): in the item list derived by `getProvidedProps` (before
`transformItems`), the number of empty-string-valued items equals the number
of supplied items encoding to `""` when that is positive, and `1` (the
appended "All" pseudo-item) when it is zero; hence the "All" pseudo-item is
present exactly once whenever at most one supplied item encodes to `""`. -/
theorem all_pseudo_item_count (props : MRProps) (searchState : SVal) (ctx : Ctx)
    (res : Option IndexResults) (out : List PItem)
    (h : getProvidedItemsMR props searchState ctx res = some out) :
    (out.countP (fun it => it.value == "")
      = (if props.items.countP (fun it => stringifyItem ⟨it.start, it.end_⟩ == "") = 0
         then 1
         else props.items.countP (fun it => stringifyItem ⟨it.start, it.end_⟩ == "")))
    ∧ (props.items.countP (fun it => stringifyItem ⟨it.start, it.end_⟩ == "") ≤ 1
        → out.countP (fun it => it.value == "") = 1) := by
  cases hcur : getCurrentRefinementMR props searchState ctx with
  | none =>
    unfold getProvidedItemsMR at h
    rw [hcur] at h
    simp at h
  | some cur =>
    unfold getProvidedItemsMR at h
    rw [hcur] at h
    simp only [Option.bind_eq_bind', Option.some_bind] at h
    have hmain : out.countP (fun it => it.value == "")
        = (if props.items.countP (fun it => stringifyItem ⟨it.start, it.end_⟩ == "") = 0
           then 1
           else props.items.countP (fun it => stringifyItem ⟨it.start, it.end_⟩ == "")) := by
      split at h
      · next hcond =>
        have hout := (Option.some.injEq _ _).mp h
        subst hout
        simp only [Bool.not_eq_true'] at hcond
        rw [any_value_map_gen _ _ (fun item => rfl)] at hcond
        have hzero : props.items.countP
            (fun it => stringifyItem ⟨it.start, it.end_⟩ == "") = 0 :=
          List.countP_eq_zero.mpr (List.any_eq_false.mp hcond)
        rw [List.countP_append, countP_value_map_gen _ _ (fun item => rfl), hzero]
        simp
      · next hcond =>
        have hout := (Option.some.injEq _ _).mp h
        subst hout
        simp only [Bool.not_eq_true', Bool.not_eq_false] at hcond
        rw [any_value_map_gen _ _ (fun item => rfl)] at hcond
        obtain ⟨a, ha, hpa⟩ := List.any_eq_true.mp hcond
        have hpos : props.items.countP
            (fun it => stringifyItem ⟨it.start, it.end_⟩ == "") ≠ 0 := by
          intro h0
          exact absurd hpa (by simpa using List.countP_eq_zero.mp h0 a ha)
        rw [countP_value_map_gen _ _ (fun item => rfl), if_neg hpos]
    refine ⟨hmain, fun hle => ?_⟩
    rw [hmain]
    split
    · rfl
    · omega

/-- Witness for C9: a single supplied item `{1, 2}`; the derived list holds
the appended "All" pseudo-item exactly once. -/
theorem all_pseudo_item_count_witness :
    getProvidedItemsMR ⟨"price", none, [⟨none, some 1, some 2⟩]⟩ SVal.nilO
      (Ctx.single "i") none
      = some [⟨none, "1:2", false, false⟩, ⟨some "All", "", true, true⟩]
    ∧ (([⟨none, "1:2", false, false⟩, ⟨some "All", "", true, true⟩] :
          List PItem).countP (fun it => it.value == "")
        = (if ([⟨none, some 1, some 2⟩] : List MRItem).countP
              (fun it => stringifyItem ⟨it.start, it.end_⟩ == "") = 0
           then 1
           else ([⟨none, some 1, some 2⟩] : List MRItem).countP
              (fun it => stringifyItem ⟨it.start, it.end_⟩ == "")))
    ∧ (([⟨none, some 1, some 2⟩] : List MRItem).countP
          (fun it => stringifyItem ⟨it.start, it.end_⟩ == "") ≤ 1
        → ([⟨none, "1:2", false, false⟩, ⟨some "All", "", true, true⟩] :
            List PItem).countP (fun it => it.value == "") = 1) :=
  ⟨by decide,
    (all_pseudo_item_count ⟨"price", none, [⟨none, some 1, some 2⟩]⟩ SVal.nilO
      (Ctx.single "i") none _ (by decide)).1,
    (all_pseudo_item_count ⟨"price", none, [⟨none, some 1, some 2⟩]⟩ SVal.nilO
      (Ctx.single "i") none _ (by decide)).2⟩

end ISpec
